import Mathlib

/-!
# Verification of the `gonetcache` subnet-aware LRU cache engine

Shallow embedding of `gonetcache.go` (package `gonetcache`): a fixed-capacity
LRU cache keyed by IP network, resolved by longest-match against an
index of registered networks.

Modelling choices:
* IPv4 addresses are naturals below `2 ^ 32`; a network (`net.IPNet`) is a
  base address plus a mask length.
* The intrusive doubly linked recency list of `cacheEntry` records is
  represented by an arena of slots (`slots : List (Slot T)`, indexed by
  `entryid`) together with `chain : List Nat`, the slot ids reachable from
  `cacheTop` by following `next`, and `cacheBottom : Option Nat`, the slot id
  the `cacheBottom` pointer holds (`none` models a nil pointer).
* The external trie dependency `twinshrubnet` (not part of this repository's
  sources) is modelled from the spec as an association list from canonical
  networks to slot ids with longest-match lookup.
* Counters are `Nat` (the Go `uint64` counters only ever increment by one, so
  wraparound is immaterial to the claims); `GetHitRate`'s `float64`
  arithmetic is modelled by exact rationals.
* The `Getter` callback stored in the Go struct is passed as an explicit
  function argument, so that cache states have decidable equality.
* `Lookup` is modelled sequentially: the asynchronous goroutine that promotes
  a fast-path hit is folded into the hit path (it is the only pending effect
  between sequential calls).
-/

namespace GoNetCache

/-- Address width in bits (IPv4; all claims concern IPv4 addresses). -/
def width : Nat := 32

/-- A `net.IPNet`: base address and mask length. -/
structure IPNet where
  base : Nat
  len : Nat
deriving DecidableEq, Repr

/-- Number of host (non-network) bits of a network. -/
def hostBits (n : IPNet) : Nat := width - n.len

/-- Modelled from the spec: networks are "canonicalized to its base address
(host bits zeroed) before use as an index key" — the canonical form that the
string key `network.String()` passed to the external `twinshrubnet` trie
denotes. -/
def canon (n : IPNet) : IPNet :=
  ⟨n.base / 2 ^ hostBits n * 2 ^ hostBits n, n.len⟩

/-- Address `a` lies inside network `n`: the network bits agree. -/
def memberNet (a : Nat) (n : IPNet) : Bool :=
  a / 2 ^ hostBits n == n.base / 2 ^ hostBits n

/-- The index of registered networks: canonical network ↦ slot id.
Modelled from the spec: the external `twinshrubnet.TreeRoot` trie, whose
behaviour the spec fixes in §4.1 (exact insert/remove, longest match). -/
abbrev Tree := List (IPNet × Nat)

/-- Modelled from the spec: `twinshrubnet` `AddNet` "registers network with
the given slot. Fails if a Network with the identical canonical key is
already registered; never silently overwrites." -/
def addNet (t : Tree) (nw : IPNet) (sid : Nat) : Except String Tree :=
  if t.any (fun p => p.fst = canon nw) then
    .error "network already present"
  else
    .ok ((canon nw, sid) :: t)

/-- Modelled from the spec: `twinshrubnet` `RemoveNet` "unregisters the exact
canonical Network. Fails (reported, non-fatal) if the key is absent." -/
def removeNet (t : Tree) (nw : IPNet) : Except String Tree :=
  if t.any (fun p => p.fst = canon nw) then
    .ok (t.filter (fun p => p.fst ≠ canon nw))
  else
    .error "network not present"

/-- One step of the longest-match walk: keep the better (deeper) of the
current best match and the candidate entry, ignoring entries that do not
contain the address. -/
def bestStep (a : Nat) (best : Option (IPNet × Nat)) (p : IPNet × Nat) :
    Option (IPNet × Nat) :=
  if memberNet a p.fst then
    match best with
    | none => some p
    | some q => if q.fst.len < p.fst.len then some p else some q
  else best

/-- Modelled from the spec: longest-match walk — "return the deepest (most
specific, i.e. longest prefix length) match found along the walk, or none". -/
def bestMatch (t : Tree) (a : Nat) : Option (IPNet × Nat) :=
  t.foldl (bestStep a) none

/-- Modelled from the spec: `twinshrubnet` `GetFromIP`, returning the slot of
the most specific registered network containing the address. -/
def GetFromIP (t : Tree) (a : Nat) : Option Nat :=
  (bestMatch t a).map (·.snd)

/-- One `cacheEntry` record's payload: `entry *T` and `net *net.IPNet`
(the `prev`/`next` links live in `chain`/`cacheBottom` of `NetCache`). -/
structure Slot (T : Type) where
  entry : Option T
  net : Option IPNet
deriving DecidableEq, Repr

/-- `CacheStats` (gonetcache.go lines 28-32). -/
structure CacheStats where
  Hits : Nat
  Misses : Nat
  Evictions : Nat
deriving DecidableEq, Repr

/-- `NetCache` (gonetcache.go lines 34-42). `chain` is the list of slot ids
reachable from `cacheTop` via `next`; `cacheBottom` is the bottom pointer;
`slots` is the arena of `cacheEntry` records indexed by `entryid`. -/
structure NetCache (T : Type) where
  cacheTree : Tree
  chain : List Nat
  cacheBottom : Option Nat
  slots : List (Slot T)
  stats : CacheStats
  maxSize : Int
deriving DecidableEq, Repr

/-- The empty (unbound) slot all entries start as. -/
def emptySlot {T : Type} : Slot T := ⟨none, none⟩

/-- `New` (gonetcache.go lines 44-84): error on `cacheSize == 0`; otherwise a
first entry with id 0 plus one entry per loop iteration `1 ≤ i < cacheSize`,
linked top to bottom, with `cacheBottom` the last entry created. -/
def New (T : Type) (cacheSize : Int) : Except String (NetCache T) :=
  if cacheSize = 0 then
    .error "cannot have cache size of 0"
  else
    let n : Nat := 1 + (cacheSize - 1).toNat
    .ok
      { cacheTree := []
        chain := List.range n
        cacheBottom := some (n - 1)
        slots := List.replicate n emptySlot
        stats := ⟨0, 0, 0⟩
        maxSize := cacheSize }

/-- `cacheEntryPromote` (gonetcache.go lines 190-223): no-op when the entry is
already `cacheTop`; otherwise unlink it (updating `cacheBottom` to its
predecessor when it was the bottom) and splice it in at the top. -/
def cacheEntryPromote {T : Type} (c : NetCache T) (e : Nat) : NetCache T :=
  if c.chain.head? = some e then c
  else
    let chain' := c.chain.erase e
    { c with
        chain := e :: chain'
        cacheBottom :=
          if c.cacheBottom = some e then chain'.getLast? else c.cacheBottom }

/-- `addCacheEntry` (gonetcache.go lines 144-188). Returns the new state and
the error the caller would log, `none` on success. Mutations made before a
failing `AddNet` persist, exactly as in the Go code:
* nil network: error, no mutation (lines 145-147);
* nil `cacheBottom`: error, no mutation (lines 151-153);
* otherwise: if the bottom slot is bound, count an eviction and remove its old
  network from the tree, a removal failure being logged only (lines 156-163);
  detach the bottom entry (`cacheBottom = cacheBottom.prev`, lines 166-172 —
  when the bottom is also `cacheTop`, i.e. capacity one, the top chain keeps
  the entry while `cacheBottom` becomes nil); overwrite the entry's contents
  (lines 175-176); `AddNet` (line 179), whose failure is returned after those
  mutations; on success promote the entry to the top (line 185). -/
def addCacheEntry {T : Type} (c : NetCache T) (result : T)
    (network : Option IPNet) : NetCache T × Option String :=
  match network with
  | none => (c, some "cannot add nil network to cache")
  | some nw =>
    match c.cacheBottom with
    | none => (c, some "cache not properly initialized")
    | some b =>
      let oldNetwork := (c.slots.getD b emptySlot).net
      let stats' :=
        match oldNetwork with
        | some _ => { c.stats with Evictions := c.stats.Evictions + 1 }
        | none => c.stats
      let tree' :=
        match oldNetwork with
        | some old =>
          match removeNet c.cacheTree old with
          | .ok t => t
          | .error _ => c.cacheTree
        | none => c.cacheTree
      let chain' := if c.chain.head? = some b then c.chain else c.chain.dropLast
      let bottom' := c.chain.dropLast.getLast?
      let slots' := c.slots.set b ⟨some result, some nw⟩
      match addNet tree' nw b with
      | .error e =>
        ({ c with
             cacheTree := tree'
             chain := chain'
             cacheBottom := bottom'
             slots := slots'
             stats := stats' },
         some ("could not add cache entry: " ++ e))
      | .ok tree2 =>
        (cacheEntryPromote
          { c with
              cacheTree := tree2
              chain := chain'
              cacheBottom := bottom'
              slots := slots'
              stats := stats' }
          b, none)

/-- The miss path of `Lookup` (gonetcache.go lines 128-135): count a miss,
call the `Getter`, try to cache (the error being only logged), and return the
computed result regardless. -/
def lookupMiss {T : Type} (getter : Nat → T × Option IPNet) (c : NetCache T)
    (ip : Nat) : T × NetCache T :=
  let c1 := { c with stats := { c.stats with Misses := c.stats.Misses + 1 } }
  let r := getter ip
  (r.fst, (addCacheEntry c1 r.fst r.snd).fst)

/-- `Lookup` (gonetcache.go lines 89-136), sequential semantics: query the
tree; on a hit (an indexed slot whose `entry` is non-nil) copy the value,
count a hit, and promote the slot (the async promotion folded in); otherwise
take the miss path. `Lookup` is a total function: it always returns a value. -/
def Lookup {T : Type} (getter : Nat → T × Option IPNet) (c : NetCache T)
    (ip : Nat) : T × NetCache T :=
  match GetFromIP c.cacheTree ip with
  | some sid =>
    match (c.slots.getD sid emptySlot).entry with
    | some v =>
      (v,
        cacheEntryPromote
          { c with stats := { c.stats with Hits := c.stats.Hits + 1 } } sid)
    | none => lookupMiss getter c ip
  | none => lookupMiss getter c ip

/-- Run a sequence of sequential `Lookup`s, keeping only the state. -/
def runLookups {T : Type} (getter : Nat → T × Option IPNet) (c : NetCache T)
    (ips : List Nat) : NetCache T :=
  ips.foldl (fun st ip => (Lookup getter st ip).snd) c

/-- `GetStats` (gonetcache.go lines 248-254). -/
def GetStats {T : Type} (c : NetCache T) : CacheStats := c.stats

/-- `GetHitRate` (gonetcache.go lines 272-280), `float64` arithmetic modelled
by exact rationals: 0 when no lookups have happened, else
`hits / (hits + misses) * 100`. -/
def GetHitRate {T : Type} (c : NetCache T) : ℚ :=
  let hits := c.stats.Hits
  let misses := c.stats.Misses
  let total := hits + misses
  if total = 0 then 0 else (hits : ℚ) / (total : ℚ) * 100

instance {ε α : Type} [DecidableEq ε] [DecidableEq α] : DecidableEq (Except ε α) :=
  fun x y =>
    match x, y with
    | .ok a, .ok b =>
      if h : a = b then .isTrue (by rw [h]) else .isFalse (by simp [h])
    | .error a, .error b =>
      if h : a = b then .isTrue (by rw [h]) else .isFalse (by simp [h])
    | .ok _, .error _ => .isFalse (by simp)
    | .error _, .ok _ => .isFalse (by simp)

/-- The resolver of the repository's own tests (`TestCacheEviction`,
`TestCacheStats`, ...): every address maps to its value (here the address
itself) and its surrounding `/24` network. -/
def g24 : Nat → Nat × Option IPNet :=
  fun a => (a, some ⟨a / 256 * 256, 24⟩)

/-- The state `New Nat 1` constructs (one slot, top = bottom = entry 0). -/
def newCache1 : NetCache Nat :=
  { cacheTree := []
    chain := [0]
    cacheBottom := some 0
    slots := [emptySlot]
    stats := ⟨0, 0, 0⟩
    maxSize := 1 }

/-- The state `New Nat 2` constructs (two slots, chain 0 → 1). -/
def newCache2 : NetCache Nat :=
  { cacheTree := []
    chain := [0, 1]
    cacheBottom := some 1
    slots := [emptySlot, emptySlot]
    stats := ⟨0, 0, 0⟩
    maxSize := 2 }

/-- A capacity-2 engine in which both `10.0.0.0/16` (slot 0, value `v16`) and
`10.0.0.0/24` (slot 1, value `v24`) are registered, each bound to its own
slot (`167772160 = 10.0.0.0`). -/
def overlapCache (T : Type) (v16 v24 : T) : NetCache T :=
  { cacheTree := [(⟨167772160, 16⟩, 0), (⟨167772160, 24⟩, 1)]
    chain := [0, 1]
    cacheBottom := some 1
    slots := [⟨some v16, some ⟨167772160, 16⟩⟩, ⟨some v24, some ⟨167772160, 24⟩⟩]
    stats := ⟨0, 0, 0⟩
    maxSize := 2 }

/-- As `overlapCache` but with the two index entries in the other order. -/
def overlapCache' (T : Type) (v16 v24 : T) : NetCache T :=
  { cacheTree := [(⟨167772160, 24⟩, 1), (⟨167772160, 16⟩, 0)]
    chain := [0, 1]
    cacheBottom := some 1
    slots := [⟨some v16, some ⟨167772160, 16⟩⟩, ⟨some v24, some ⟨167772160, 24⟩⟩]
    stats := ⟨0, 0, 0⟩
    maxSize := 2 }

/-- A capacity-1 engine whose single (bottom) slot is bound to a network that
is *not* registered in the index, so that eviction's removal step fails. -/
def evictFailState : NetCache Nat :=
  { cacheTree := []
    chain := [0]
    cacheBottom := some 0
    slots := [⟨some 7, some ⟨0, 24⟩⟩]
    stats := ⟨0, 0, 0⟩
    maxSize := 1 }

/-- A resolver that maps every address to the fixed value `v` and the owning
network `10.0.0.0/24` (C1's resolver; `167772160 = 10.0.0.0`). -/
def g24const (T : Type) (v : T) : Nat → T × Option IPNet :=
  fun _ => (v, some ⟨167772160, 24⟩)

/-- A slot is *bound*: `entry` and `net` both non-nil. -/
def boundSlot {T : Type} (s : Slot T) : Prop :=
  s.entry.isSome = true ∧ s.net.isSome = true

/-- The canonical index key of a (bound) slot's network. -/
def slotKey {T : Type} (s : Slot T) : IPNet :=
  canon (s.net.getD ⟨0, 0⟩)

/-- Index coherence of an index/slot-arena pair: the index keys are pairwise
distinct; every index entry references a bound in-range slot whose network's
canonical form is exactly that key; and every bound slot's canonical network
maps back to it in the index. -/
def coherentTS {T : Type} (t : Tree) (sl : List (Slot T)) : Prop :=
  (t.map Prod.fst).Nodup ∧
  (∀ p ∈ t,
      p.snd < sl.length ∧
      (sl.getD p.snd emptySlot).entry.isSome = true ∧
      (sl.getD p.snd emptySlot).net.map canon = some p.fst) ∧
  (∀ i < sl.length, boundSlot (sl.getD i emptySlot) →
      (slotKey (sl.getD i emptySlot), i) ∈ t)

/-- Index coherence of an engine state, stated as the claim states it: for
every bound slot the index holds *exactly one* entry mapping that slot's
(canonical) network to that slot, and every index entry references a slot
bound with exactly that network. -/
def coherent {T : Type} (c : NetCache T) : Prop :=
  coherentTS c.cacheTree c.slots ∧
  (∀ i < c.slots.length, boundSlot (c.slots.getD i emptySlot) →
      c.cacheTree.count (slotKey (c.slots.getD i emptySlot), i) = 1)

/-- The resolver contract the spec states in §6: the returned network is the
*owning* network of the queried address (when one is returned at all). -/
def resolverOk {T : Type} (getter : Nat → T × Option IPNet) : Prop :=
  ∀ a : Nat, ∀ nw : IPNet, (getter a).snd = some nw → memberNet a nw = true

/-- A slot's `entry` and `net` are nil together or set together (true of every
reachable state: `New` clears both, rebinding sets both). -/
def slotsSyncedL {T : Type} (sl : List (Slot T)) : Prop :=
  ∀ i < sl.length,
    (sl.getD i emptySlot).entry.isSome = (sl.getD i emptySlot).net.isSome

/-- Structural side conditions used in the induction: every chain member is an
in-range slot id, and the `cacheBottom` pointer (when non-nil) references a
chain member. -/
def chainOk {T : Type} (c : NetCache T) : Prop :=
  (∀ i ∈ c.chain, i < c.slots.length) ∧
  (∀ b : Nat, c.cacheBottom = some b → b ∈ c.chain)

/-- The inductive invariant maintained by every sequential `Lookup`. -/
def Inv {T : Type} (c : NetCache T) : Prop :=
  coherentTS c.cacheTree c.slots ∧ slotsSyncedL c.slots ∧ chainOk c

lemma getD_set_self {T : Type} (l : List (Slot T)) (i : Nat) (x : Slot T)
    (h : i < l.length) : (l.set i x).getD i emptySlot = x := by
  simp [List.getD_eq_getElem?_getD, List.getElem?_set_self (by simpa using h)]

lemma getD_replicate {T : Type} (n i : Nat) :
    (List.replicate n (emptySlot (T := T))).getD i emptySlot = emptySlot := by
  simp [List.getD_eq_getElem?_getD, List.getElem?_replicate]
  split <;> simp

/-- The first `Lookup` on a fresh engine of `n ≥ 1` slots with C1's resolver:
it returns `v`, registers `10.0.0.0/24` in slot `n-1`, binds that slot, and
counts exactly one miss. -/
lemma first_lookup_fresh {T : Type} (v : T) (n : Nat) (hn : 1 ≤ n) (m : Int) :
    (Lookup (g24const T v)
        { cacheTree := []
          chain := List.range n
          cacheBottom := some (n - 1)
          slots := List.replicate n emptySlot
          stats := ⟨0, 0, 0⟩
          maxSize := m } 167772161).fst = v ∧
    (Lookup (g24const T v)
        { cacheTree := []
          chain := List.range n
          cacheBottom := some (n - 1)
          slots := List.replicate n emptySlot
          stats := ⟨0, 0, 0⟩
          maxSize := m } 167772161).snd.cacheTree = [(⟨167772160, 24⟩, n - 1)] ∧
    (Lookup (g24const T v)
        { cacheTree := []
          chain := List.range n
          cacheBottom := some (n - 1)
          slots := List.replicate n emptySlot
          stats := ⟨0, 0, 0⟩
          maxSize := m } 167772161).snd.slots.getD (n - 1) emptySlot =
      ⟨some v, some ⟨167772160, 24⟩⟩ ∧
    (Lookup (g24const T v)
        { cacheTree := []
          chain := List.range n
          cacheBottom := some (n - 1)
          slots := List.replicate n emptySlot
          stats := ⟨0, 0, 0⟩
          maxSize := m } 167772161).snd.stats = ⟨0, 1, 0⟩ := by
  have hcanon : canon ⟨167772160, 24⟩ = ⟨167772160, 24⟩ := by decide
  have hslotD := getD_replicate (T := T) n (n - 1)
  have hset : ((List.replicate n (emptySlot (T := T))).set (n - 1)
      ⟨some v, some ⟨167772160, 24⟩⟩)[n - 1]? =
      some ⟨some v, some ⟨167772160, 24⟩⟩ :=
    List.getElem?_set_self (by simp; omega)
  simp only [emptySlot] at hset
  simp only [Lookup, GetFromIP, bestMatch, List.foldl_nil, Option.map_none,
    lookupMiss, g24const, addCacheEntry, hslotD, emptySlot, addNet,
    List.any_nil, Bool.false_eq_true, if_false, hcanon, cacheEntryPromote]
  refine ⟨rfl, ?_, ?_, ?_⟩ <;>
    simp [apply_ite (NetCache.cacheTree (T := T)), apply_ite (NetCache.slots (T := T)),
      apply_ite (NetCache.stats (T := T)), ite_self, hset]

/-- A hit on an engine whose index holds `10.0.0.0/24` in a bound slot `k`:
`Lookup` of `10.0.0.2` returns the cached value, counts one hit and no miss. -/
lemma hit_lookup_net24 {T : Type} (getter : Nat → T × Option IPNet)
    (c : NetCache T) (k : Nat) (v : T)
    (htree : c.cacheTree = [(⟨167772160, 24⟩, k)])
    (hslot : (c.slots.getD k emptySlot).entry = some v) :
    (Lookup getter c 167772162).fst = v ∧
    (Lookup getter c 167772162).snd.stats.Hits = c.stats.Hits + 1 ∧
    (Lookup getter c 167772162).snd.stats.Misses = c.stats.Misses := by
  have hmem : memberNet 167772162 ⟨167772160, 24⟩ = true := by decide
  have hget : GetFromIP c.cacheTree 167772162 = some k := by
    simp [GetFromIP, bestMatch, bestStep, htree, hmem]
  simp only [Lookup, hget, hslot, cacheEntryPromote]
  refine ⟨?_, ?_, ?_⟩ <;>
    simp [apply_ite (NetCache.stats (T := T)), ite_self]

lemma mem_of_getLast?_eq {l : List Nat} {a : Nat} (h : l.getLast? = some a) :
    a ∈ l := by
  obtain ⟨hne, rfl⟩ := List.mem_getLast?_eq_getLast (by rw [h]; rfl)
  exact List.getLast_mem hne

lemma getD_set_ne {T : Type} (l : List (Slot T)) (b i : Nat) (x : Slot T)
    (h : b ≠ i) : (l.set b x).getD i emptySlot = l.getD i emptySlot := by
  simp [List.getD_eq_getElem?_getD, List.getElem?_set_ne h]

lemma bestStep_some (a : Nat) (q p : IPNet × Nat) :
    ∃ r, bestStep a (some q) p = some r := by
  simp only [bestStep]
  by_cases hm : memberNet a p.fst = true
  · rw [if_pos hm]
    split
    · exact ⟨p, rfl⟩
    · exact ⟨q, rfl⟩
  · rw [if_neg hm]
    exact ⟨q, rfl⟩

lemma foldl_bestStep_some (t : Tree) (a : Nat) (q : IPNet × Nat) :
    ∃ r, t.foldl (bestStep a) (some q) = some r := by
  induction t generalizing q with
  | nil => exact ⟨q, rfl⟩
  | cons p ts ih =>
    obtain ⟨r, hr⟩ := bestStep_some a q p
    simpa [hr] using ih r

lemma foldl_bestStep_none {t : Tree} {a : Nat} :
    ∀ {acc : Option (IPNet × Nat)}, t.foldl (bestStep a) acc = none →
      ∀ p ∈ t, memberNet a p.fst = false := by
  induction t with
  | nil => intro acc _ p hp; cases hp
  | cons q ts ih =>
    intro acc hfold p hp
    have hq : memberNet a q.fst = false := by
      by_contra hne
      have hqt : memberNet a q.fst = true := by
        cases hmq : memberNet a q.fst
        · exact absurd hmq hne
        · rfl
      have hsome : ∃ r, bestStep a acc q = some r := by
        cases acc with
        | none => exact ⟨q, by simp [bestStep, hqt]⟩
        | some q' =>
          obtain ⟨r, hr⟩ := bestStep_some a q' q
          exact ⟨r, hr⟩
      obtain ⟨r, hr⟩ := hsome
      rw [List.foldl_cons, hr] at hfold
      obtain ⟨r', hr'⟩ := foldl_bestStep_some ts a r
      rw [hfold] at hr'
      cases hr'
    rcases List.mem_cons.mp hp with rfl | hp'
    · exact hq
    · exact ih (by simpa using hfold) p hp'

lemma bestMatch_none_mem {t : Tree} {a : Nat} (h : bestMatch t a = none) :
    ∀ p ∈ t, memberNet a p.fst = false :=
  foldl_bestStep_none h

lemma foldl_bestStep_mem {t : Tree} {a : Nat} {p : IPNet × Nat} :
    ∀ {acc : Option (IPNet × Nat)}, t.foldl (bestStep a) acc = some p →
      p ∈ t ∨ acc = some p := by
  induction t with
  | nil => intro acc h; exact Or.inr h
  | cons q ts ih =>
    intro acc hfold
    rcases ih (by simpa using hfold) with hmem | hstep
    · exact Or.inl (List.mem_cons_of_mem q hmem)
    · cases hm : memberNet a q.fst
      · simp [bestStep, hm] at hstep
        exact Or.inr hstep
      · cases acc with
        | none =>
          simp [bestStep, hm] at hstep
          exact Or.inl (by simp [hstep])
        | some q' =>
          simp only [bestStep, hm, if_true] at hstep
          split at hstep
          · exact Or.inl (by simp [← Option.some.injEq _ _ |>.mp hstep])
          · exact Or.inr hstep

lemma bestMatch_mem {t : Tree} {a : Nat} {p : IPNet × Nat}
    (h : bestMatch t a = some p) : p ∈ t := by
  rcases foldl_bestStep_mem h with hm | hacc
  · exact hm
  · cases hacc

lemma memberNet_canon (a : Nat) (nw : IPNet) :
    memberNet a (canon nw) = memberNet a nw := by
  unfold memberNet canon hostBits
  simp only
  rw [Nat.mul_div_cancel _ (Nat.pos_pow_of_pos _ (by omega))]

lemma nodupKeys_eq {t : Tree}
    (hnd : (t.map Prod.fst).Nodup) {p q : IPNet × Nat}
    (hp : p ∈ t) (hq : q ∈ t) (hfst : p.fst = q.fst) : p = q := by
  induction t with
  | nil => cases hp
  | cons r ts ih =>
    rw [List.map_cons, List.nodup_cons] at hnd
    rcases List.mem_cons.mp hp with rfl | hp' <;>
      rcases List.mem_cons.mp hq with rfl | hq'
    · rfl
    · exact absurd (hfst ▸ List.mem_map_of_mem Prod.fst hq') hnd.1
    · exact absurd (hfst ▸ List.mem_map_of_mem Prod.fst hp') hnd.1
    · exact ih hnd.2 hp' hq'

lemma tree_count_one {t : Tree} {x : IPNet × Nat}
    (hnd : (t.map Prod.fst).Nodup) (hm : x ∈ t) : t.count x = 1 := by
  refine le_antisymm ?_ (List.count_pos_iff.mpr hm)
  have h1 : t.count x ≤ t.countP (fun p => p.fst == x.fst) := by
    apply List.countP_mono_left
    intro a _ ha
    have : a = x := by simpa using ha
    simp [this]
  have h2 : t.countP (fun p => p.fst == x.fst) = (t.map Prod.fst).count x.fst := by
    rw [List.count, List.countP_map]
    rfl
  have h3 : (t.map Prod.fst).count x.fst ≤ 1 :=
    List.nodup_iff_count_le_one.mp hnd x.fst
  omega

lemma promote_cacheTree {T : Type} (c : NetCache T) (e : Nat) :
    (cacheEntryPromote c e).cacheTree = c.cacheTree := by
  unfold cacheEntryPromote
  split <;> rfl

lemma promote_slots {T : Type} (c : NetCache T) (e : Nat) :
    (cacheEntryPromote c e).slots = c.slots := by
  unfold cacheEntryPromote
  split <;> rfl

lemma chainOk_promote {T : Type} (c : NetCache T) (e : Nat)
    (hch : chainOk c) (he : e < c.slots.length) :
    chainOk (cacheEntryPromote c e) := by
  obtain ⟨h1, h2⟩ := hch
  unfold cacheEntryPromote
  split
  · exact ⟨h1, h2⟩
  · constructor
    · intro i hi
      rcases List.mem_cons.mp hi with rfl | hi'
      · exact he
      · exact h1 i (List.erase_subset _ _ hi')
    · intro b' hb'
      simp only at hb'
      by_cases hbe : c.cacheBottom = some e
      · rw [if_pos hbe] at hb'
        have hmem : b' ∈ c.chain.erase e := mem_of_getLast?_eq hb'
        exact List.mem_cons_of_mem _ hmem
      · rw [if_neg hbe] at hb'
        have hmem := h2 b' hb'
        by_cases hbe' : b' = e
        · simp [hbe']
        · exact List.mem_cons_of_mem _ ((List.mem_erase_of_ne hbe').mpr hmem)

lemma slotsSyncedL_set {T : Type} (sl : List (Slot T)) (b : Nat) (v : T)
    (nw : IPNet) (hs : slotsSyncedL sl) :
    slotsSyncedL (sl.set b ⟨some v, some nw⟩) := by
  intro i hi
  rw [List.length_set] at hi
  by_cases hib : i = b
  · subst hib
    rw [getD_set_self _ _ _ hi]
    rfl
  · rw [getD_set_ne _ _ _ _ (Ne.symm hib)]
    exact hs i hi

lemma getD_set_self' {T : Type} (l : List (Slot T)) (b : Nat) (x : Slot T)
    (h : b < l.length) : (l.set b x)[b]? = some x :=
  List.getElem?_set_self (by simpa using h)

lemma coherentTS_insert_fresh {T : Type} (t : Tree) (sl : List (Slot T))
    (b : Nat) (v : T) (nw : IPNet)
    (hco : coherentTS t sl) (hb : b < sl.length)
    (hkey : canon nw ∉ t.map Prod.fst)
    (hold : (sl.getD b emptySlot).net = none) :
    coherentTS ((canon nw, b) :: t) (sl.set b ⟨some v, some nw⟩) := by
  obtain ⟨hnd, htree, hslot⟩ := hco
  have hset : (sl.set b ⟨some v, some nw⟩).getD b emptySlot =
      ⟨some v, some nw⟩ := getD_set_self _ _ _ hb
  refine ⟨?_, ?_, ?_⟩
  · rw [List.map_cons, List.nodup_cons]
    exact ⟨hkey, hnd⟩
  · intro p hp
    rcases List.mem_cons.mp hp with rfl | hp'
    · have hset' := getD_set_self' sl b (⟨some v, some nw⟩ : Slot T) hb
      refine ⟨by simpa [List.length_set] using hb, ?_, ?_⟩ <;>
        simp [List.getD_eq_getElem?_getD, hset']
    · obtain ⟨hlen, hent, hnetc⟩ := htree p hp'
      have hpb : p.snd ≠ b := by
        intro he
        rw [he, hold] at hnetc
        cases hnetc
      rw [List.length_set]
      rw [getD_set_ne _ _ _ _ (Ne.symm hpb)]
      exact ⟨hlen, hent, hnetc⟩
  · intro i hi hbound
    rw [List.length_set] at hi
    by_cases hib : i = b
    · subst hib
      rw [hset]
      exact List.mem_cons_self _ _
    · rw [getD_set_ne _ _ _ _ (Ne.symm hib)] at hbound ⊢
      exact List.mem_cons_of_mem _ (hslot i hi hbound)

lemma coherentTS_insert_evict {T : Type} (t : Tree) (sl : List (Slot T))
    (b : Nat) (v : T) (nw old : IPNet)
    (hco : coherentTS t sl) (hsync : slotsSyncedL sl) (hb : b < sl.length)
    (hkey : canon nw ∉ t.map Prod.fst)
    (hold : (sl.getD b emptySlot).net = some old) :
    removeNet t old = Except.ok (t.filter (fun p => p.fst ≠ canon old)) ∧
    coherentTS ((canon nw, b) :: t.filter (fun p => p.fst ≠ canon old))
      (sl.set b ⟨some v, some nw⟩) := by
  obtain ⟨hnd, htree, hslot⟩ := hco
  have hbound : boundSlot (sl.getD b emptySlot) := by
    refine ⟨?_, by rw [hold]; rfl⟩
    rw [hsync b hb, hold]
    rfl
  have hmemold : (canon old, b) ∈ t := by
    have := hslot b hb hbound
    simpa only [slotKey, hold, Option.getD_some] using this
  have hrem : removeNet t old =
      Except.ok (t.filter (fun p => p.fst ≠ canon old)) := by
    unfold removeNet
    rw [if_pos]
    exact List.any_eq_true.mpr ⟨(canon old, b), hmemold, by simp⟩
  have hset : (sl.set b ⟨some v, some nw⟩).getD b emptySlot =
      ⟨some v, some nw⟩ := getD_set_self _ _ _ hb
  have hfilt_sub : (t.filter (fun p => p.fst ≠ canon old)).Sublist t :=
    List.filter_sublist t
  refine ⟨hrem, ?_, ?_, ?_⟩
  · rw [List.map_cons, List.nodup_cons]
    constructor
    · intro hmemk
      exact hkey ((hfilt_sub.map Prod.fst).mem hmemk)
    · exact hnd.sublist (hfilt_sub.map Prod.fst)
  · intro p hp
    rcases List.mem_cons.mp hp with rfl | hp'
    · have hset' := getD_set_self' sl b (⟨some v, some nw⟩ : Slot T) hb
      refine ⟨by simpa [List.length_set] using hb, ?_, ?_⟩ <;>
        simp [List.getD_eq_getElem?_getD, hset']
    · have hpt : p ∈ t := List.mem_of_mem_filter hp'
      have hpne : p.fst ≠ canon old := by simpa using List.of_mem_filter hp'
      obtain ⟨hlen, hent, hnetc⟩ := htree p hpt
      have hpb : p.snd ≠ b := by
        intro he
        rw [he, hold] at hnetc
        exact hpne (by simpa using hnetc.symm)
      rw [List.length_set]
      rw [getD_set_ne _ _ _ _ (Ne.symm hpb)]
      exact ⟨hlen, hent, hnetc⟩
  · intro i hi hbound'
    rw [List.length_set] at hi
    by_cases hib : i = b
    · subst hib
      rw [hset]
      exact List.mem_cons_self _ _
    · rw [getD_set_ne _ _ _ _ (Ne.symm hib)] at hbound' ⊢
      have hmem_i := hslot i hi hbound'
      have hne : slotKey (sl.getD i emptySlot) ≠ canon old := by
        intro heq
        have hmem_i' : (canon old, i) ∈ t := by
          rw [← heq]
          exact hmem_i
        have hpq := nodupKeys_eq hnd hmem_i' hmemold rfl
        exact hib ((Prod.ext_iff.mp hpq).2)
      refine List.mem_cons_of_mem _ (List.mem_filter_of_mem hmem_i ?_)
      simpa using hne

lemma Inv_addCacheEntry {T : Type} (c : NetCache T) (v : T)
    (netw : Option IPNet) (ip : Nat) (hInv : Inv c)
    (hbm : GetFromIP c.cacheTree ip = none)
    (hmem : ∀ nw, netw = some nw → memberNet ip nw = true) :
    Inv (addCacheEntry c v netw).fst := by
  obtain ⟨hco, hsync, hch⟩ := hInv
  cases hnetw : netw with
  | none => exact ⟨hco, hsync, hch⟩
  | some nw =>
    have hmemnw : memberNet ip nw = true := hmem nw hnetw
    cases hbot : c.cacheBottom with
    | none =>
      simp only [addCacheEntry, hbot]
      exact ⟨hco, hsync, hch⟩
    | some b =>
      have hbchain : b ∈ c.chain := hch.2 b hbot
      have hblen : b < c.slots.length := hch.1 b hbchain
      have hbm' : bestMatch c.cacheTree ip = none := by
        cases hbm2 : bestMatch c.cacheTree ip with
        | none => rfl
        | some p =>
          rw [GetFromIP, hbm2] at hbm
          cases hbm
      have hnomem : ∀ p ∈ c.cacheTree, memberNet ip p.fst = false :=
        bestMatch_none_mem hbm'
      have hkey : canon nw ∉ c.cacheTree.map Prod.fst := by
        intro hk
        obtain ⟨p, hp, hpf⟩ := List.mem_map.mp hk
        have hfalse := hnomem p hp
        rw [hpf, memberNet_canon, hmemnw] at hfalse
        cases hfalse
      have hchain1 : ∀ i ∈ (if c.chain.head? = some b then c.chain
          else c.chain.dropLast), i < c.slots.length := by
        intro i hi
        by_cases hhead : c.chain.head? = some b
        · rw [if_pos hhead] at hi
          exact hch.1 i hi
        · rw [if_neg hhead] at hi
          exact hch.1 i ((List.dropLast_sublist c.chain).subset hi)
      have hchain2 : ∀ b' : Nat, c.chain.dropLast.getLast? = some b' →
          b' ∈ (if c.chain.head? = some b then c.chain
            else c.chain.dropLast) := by
        intro b' hb'
        have hmem' : b' ∈ c.chain.dropLast := mem_of_getLast?_eq hb'
        by_cases hhead : c.chain.head? = some b
        · rw [if_pos hhead]
          exact (List.dropLast_sublist c.chain).subset hmem'
        · rw [if_neg hhead]
          exact hmem'
      cases hold : (c.slots.getD b emptySlot).net with
      | none =>
        have hco' := coherentTS_insert_fresh c.cacheTree c.slots b v nw hco
          hblen hkey hold
        have hnkey : ¬(c.cacheTree.any (fun p => p.fst = canon nw) = true) := by
          intro hany
          obtain ⟨p, hp, hpe⟩ := List.any_eq_true.mp hany
          exact hkey (List.mem_map.mpr ⟨p, hp, by simpa using hpe⟩)
        have haddnet : addNet c.cacheTree nw b =
            Except.ok ((canon nw, b) :: c.cacheTree) := by
          simp only [addNet]
          rw [if_neg hnkey]
        simp only [addCacheEntry, hbot, hold, haddnet]
        refine ⟨?_, ?_, ?_⟩
        · rw [promote_cacheTree, promote_slots]
          exact hco'
        · rw [promote_slots]
          exact slotsSyncedL_set _ _ _ _ hsync
        · refine chainOk_promote _ b ⟨?_, ?_⟩ ?_
          · intro i hi
            simpa [List.length_set] using hchain1 i hi
          · exact hchain2
          · simpa [List.length_set] using hblen
      | some old =>
        obtain ⟨hrem, hco'⟩ := coherentTS_insert_evict c.cacheTree c.slots b v
          nw old hco hsync hblen hkey hold
        have hnkey : ¬((c.cacheTree.filter
            (fun p => p.fst ≠ canon old)).any
              (fun p => p.fst = canon nw) = true) := by
          intro hany
          obtain ⟨p, hp, hpe⟩ := List.any_eq_true.mp hany
          exact hkey (List.mem_map.mpr
            ⟨p, List.mem_of_mem_filter hp, by simpa using hpe⟩)
        have haddnet : addNet (c.cacheTree.filter
            (fun p => p.fst ≠ canon old)) nw b =
            Except.ok ((canon nw, b) ::
              c.cacheTree.filter (fun p => p.fst ≠ canon old)) := by
          simp only [addNet]
          rw [if_neg hnkey]
        simp only [addCacheEntry, hbot, hold, hrem, haddnet]
        refine ⟨?_, ?_, ?_⟩
        · rw [promote_cacheTree, promote_slots]
          exact hco'
        · rw [promote_slots]
          exact slotsSyncedL_set _ _ _ _ hsync
        · refine chainOk_promote _ b ⟨?_, ?_⟩ ?_
          · intro i hi
            simpa [List.length_set] using hchain1 i hi
          · exact hchain2
          · simpa [List.length_set] using hblen

lemma Inv_lookup {T : Type} (getter : Nat → T × Option IPNet)
    (hres : resolverOk getter) (c : NetCache T) (ip : Nat) (hInv : Inv c) :
    Inv (Lookup getter c ip).snd := by
  obtain ⟨hco, hsync, hch⟩ := hInv
  cases hbm : GetFromIP c.cacheTree ip with
  | some sid =>
    have hsid : sid < c.slots.length ∧
        (c.slots.getD sid emptySlot).entry.isSome = true := by
      have hex : ∃ p, bestMatch c.cacheTree ip = some p ∧ p.snd = sid := by
        cases hbm2 : bestMatch c.cacheTree ip with
        | none =>
          rw [GetFromIP, hbm2] at hbm
          cases hbm
        | some p =>
          rw [GetFromIP, hbm2] at hbm
          exact ⟨p, rfl, by simpa using hbm⟩
      obtain ⟨p, hp, hps⟩ := hex
      obtain ⟨hlen, hent, _⟩ := hco.2.1 p (bestMatch_mem hp)
      exact ⟨hps ▸ hlen, hps ▸ hent⟩
    cases hent : (c.slots.getD sid emptySlot).entry with
    | some v =>
      simp only [Lookup, hbm, hent]
      refine ⟨?_, ?_, ?_⟩
      · rw [promote_cacheTree, promote_slots]
        exact hco
      · rw [promote_slots]
        exact hsync
      · exact chainOk_promote _ sid ⟨hch.1, hch.2⟩ hsid.1
    | none =>
      rw [hent] at hsid
      simp at hsid
  | none =>
    simp only [Lookup, hbm, lookupMiss]
    apply Inv_addCacheEntry _ _ _ ip
    · exact ⟨hco, hsync, hch⟩
    · exact hbm
    · intro nw hnw
      exact hres ip nw hnw

lemma Inv_New {T : Type} (cacheSize : Int) (st0 : NetCache T)
    (h : New T cacheSize = Except.ok st0) : Inv st0 := by
  have hz : cacheSize ≠ 0 := by
    intro h0
    rw [h0] at h
    simp [New] at h
  simp only [New, if_neg hz, Except.ok.injEq] at h
  subst h
  refine ⟨⟨?_, ?_, ?_⟩, ?_, ?_, ?_⟩
  · simp
  · intro p hp
    cases hp
  · intro i hi hb
    rw [getD_replicate] at hb
    simp [boundSlot, emptySlot] at hb
  · intro i hi
    rw [getD_replicate]
    rfl
  · intro i hi
    simp only [List.mem_range] at hi
    simpa using hi
  · intro b hb
    simp only [Option.some.injEq] at hb
    subst hb
    simp only [List.mem_range]
    omega

lemma Inv_runLookups {T : Type} (getter : Nat → T × Option IPNet)
    (hres : resolverOk getter) (ips : List Nat) (c : NetCache T)
    (hInv : Inv c) : Inv (runLookups getter c ips) := by
  induction ips generalizing c with
  | nil => exact hInv
  | cons ip ips ih =>
    exact ih (Lookup getter c ip).snd (Inv_lookup getter hres c ip hInv)

/-- C5: after any sequence of sequential `Lookup`s from a freshly constructed
engine — insert-failure cases included — the index is coherent: for every
bound slot the prefix index holds exactly one entry mapping that slot's
(canonical) network to that slot, and every index entry references an
in-range slot bound with exactly that network. The hypothesis `resolverOk`
is the spec's Resolver contract (§6): the returned network, when present, is
the *owning* network of the queried address. -/
theorem C5_index_coherence (T : Type) (getter : Nat → T × Option IPNet)
    (hres : resolverOk getter) (cacheSize : Int) (st0 : NetCache T)
    (hnew : New T cacheSize = Except.ok st0) (ips : List Nat) :
    coherent (runLookups getter st0 ips) := by
  obtain ⟨hco, hsync, hch⟩ :=
    Inv_runLookups getter hres ips st0 (Inv_New cacheSize st0 hnew)
  refine ⟨hco, ?_⟩
  intro i hi hb
  exact tree_count_one hco.1 (hco.2.2 i hi hb)

lemma resolverOk_g24 : resolverOk g24 := by
  intro a nw h
  simp only [g24, Option.some.injEq] at h
  subst h
  show memberNet a ⟨a / 256 * 256, 24⟩ = true
  unfold memberNet hostBits width
  norm_num

/-- Witness for C5 at capacity 2 with the tests' `/24` resolver over a
miss–miss–hit sequence. -/
theorem C5_index_coherence_witness :
    coherent (runLookups g24 newCache2 [167772161, 184549377, 167772162]) :=
  C5_index_coherence Nat g24 resolverOk_g24 2 newCache2 (by decide)
    [167772161, 184549377, 167772162]

/-- C1: for an engine of any capacity `cacheSize ≥ 1` whose resolver maps
every address to value `v` and owning network `10.0.0.0/24`, `Lookup` of
`10.0.0.1` followed by `Lookup` of `10.0.0.2` yields exactly one miss and one
hit, and both lookups return the resolver's value. -/
theorem C1_subnet_coalescing (T : Type) (v : T) (cacheSize : Int)
    (hcap : 1 ≤ cacheSize) (st0 : NetCache T)
    (hnew : New T cacheSize = Except.ok st0) :
    (Lookup (g24const T v) st0 167772161).fst = v ∧
    (Lookup (g24const T v) (Lookup (g24const T v) st0 167772161).snd
        167772162).fst = v ∧
    (Lookup (g24const T v) (Lookup (g24const T v) st0 167772161).snd
        167772162).snd.stats.Misses = 1 ∧
    (Lookup (g24const T v) (Lookup (g24const T v) st0 167772161).snd
        167772162).snd.stats.Hits = 1 := by
  have hz : cacheSize ≠ 0 := by omega
  simp only [New, if_neg hz, Except.ok.injEq] at hnew
  subst hnew
  obtain ⟨h1, h2, h3, h4⟩ :=
    first_lookup_fresh v (1 + (cacheSize - 1).toNat) (by omega) cacheSize
  obtain ⟨g1, g2, g3⟩ :=
    hit_lookup_net24 (g24const T v) _ (1 + (cacheSize - 1).toNat - 1) v h2
      (by rw [h3])
  refine ⟨h1, g1, ?_, ?_⟩
  · rw [g3, h4]
  · rw [g2, h4]

/-- Witness for C1 at capacity 1 with value `42`. -/
theorem C1_subnet_coalescing_witness :
    (Lookup (g24const Nat 42) newCache1 167772161).fst = 42 ∧
    (Lookup (g24const Nat 42) (Lookup (g24const Nat 42) newCache1 167772161).snd
        167772162).fst = 42 ∧
    (Lookup (g24const Nat 42) (Lookup (g24const Nat 42) newCache1 167772161).snd
        167772162).snd.stats.Misses = 1 ∧
    (Lookup (g24const Nat 42) (Lookup (g24const Nat 42) newCache1 167772161).snd
        167772162).snd.stats.Hits = 1 :=
  C1_subnet_coalescing Nat 42 1 (by decide) newCache1 (by decide)

/-- C9: `New(resolver, 0)` returns a configuration error and no engine — the
error is the constructor's return value, not recovered internally. -/
theorem C9_zero_capacity_rejected :
    New Nat 0 = Except.error "cannot have cache size of 0" := by
  decide

/-- C10: for every `cacheSize < 0`, `New` returns a non-nil engine and no
error, and the engine has exactly one slot, with `cacheTop` and `cacheBottom`
both referencing that single entry (id 0): the chain from the top is `[0]`
and the bottom pointer is `some 0`. A negative capacity silently behaves like
capacity 1. -/
theorem C10_negative_capacity_one_slot (cacheSize : Int) (h : cacheSize < 0) :
    New Nat cacheSize =
      Except.ok
        { cacheTree := []
          chain := [0]
          cacheBottom := some 0
          slots := [emptySlot]
          stats := ⟨0, 0, 0⟩
          maxSize := cacheSize } := by
  have h0 : cacheSize ≠ 0 := by omega
  have h1 : (cacheSize - 1).toNat = 0 := by omega
  simp only [New, if_neg h0, h1]
  rfl

/-- Witness for C10 at the concrete input `cacheSize = -1`. -/
theorem C10_negative_capacity_one_slot_witness :
    New Nat (-1) =
      Except.ok
        { cacheTree := []
          chain := [0]
          cacheBottom := some 0
          slots := [emptySlot]
          stats := ⟨0, 0, 0⟩
          maxSize := -1 } :=
  C10_negative_capacity_one_slot (-1) (by decide)

/-- C4: with capacity 2 and the tests' per-address `/24` resolver, looking up
`10.0.0.1`, `11.0.0.1`, `12.0.0.1` (three disjoint `/24` subnets) yields
exactly one eviction, and a subsequent `Lookup` of `10.0.0.1` (first subnet)
is a miss, not a hit: the miss counter increments and the hit counter does
not. -/
theorem C4_eviction_counting :
    New Nat 2 = Except.ok newCache2 ∧
    (runLookups g24 newCache2 [167772161, 184549377, 201326593]).stats.Evictions = 1 ∧
    (Lookup g24 (runLookups g24 newCache2 [167772161, 184549377, 201326593])
        167772161).snd.stats.Misses =
      (runLookups g24 newCache2 [167772161, 184549377, 201326593]).stats.Misses + 1 ∧
    (Lookup g24 (runLookups g24 newCache2 [167772161, 184549377, 201326593])
        167772161).snd.stats.Hits =
      (runLookups g24 newCache2 [167772161, 184549377, 201326593]).stats.Hits := by
  decide

/-- C3 fails on the code at capacity 1: after a single miss on a fresh
capacity-1 engine, `addCacheEntry` sets `cacheBottom = cacheBottom.prev`,
which is nil — so while the chain from `cacheTop` still holds the single
slot, it no longer ends at `cacheBottom`, and every subsequent insertion
fails with "cache not properly initialized" (here: the next lookup in a
different subnet is a miss whose insert step changes nothing but the miss
counter, leaving the cache permanently unable to admit new networks). -/
theorem C3_capacity_one_loses_cacheBottom :
    New Nat 1 = Except.ok newCache1 ∧
    (runLookups g24 newCache1 [167772161]).chain = [0] ∧
    (runLookups g24 newCache1 [167772161]).cacheBottom = none ∧
    (addCacheEntry (runLookups g24 newCache1 [167772161]) 0
        (some ⟨184549376, 24⟩)).snd = some "cache not properly initialized" ∧
    (addCacheEntry (runLookups g24 newCache1 [167772161]) 0
        (some ⟨184549376, 24⟩)).fst = runLookups g24 newCache1 [167772161] := by
  decide

/-- C2: with `10.0.0.0/16` (value `v16`, slot 0) and `10.0.0.0/24` (value
`v24`, slot 1) both registered in the index, `Lookup` of `10.0.0.5`
(`167772165`) returns the value of the `/24` registration — whichever order
the two registrations sit in the index, the most specific (longest prefix)
registered network containing the address wins. -/
theorem C2_longest_match_law (T : Type) (getter : Nat → T × Option IPNet)
    (v16 v24 : T) :
    (Lookup getter (overlapCache T v16 v24) 167772165).fst = v24 ∧
    (Lookup getter (overlapCache' T v16 v24) 167772165).fst = v24 := by
  constructor <;> rfl

/-- C6: when the Resolver reports no owning network for a missed address,
`Lookup` still returns the Resolver's computed value; the miss counter is
incremented and *nothing else* changes — no slot is rebound, the index is
untouched, and the insertion error is only logged, never propagated (the
equality of the full resulting state shows `Lookup` returned normally). -/
theorem C6_uncacheable_still_returns (T : Type)
    (getter : Nat → T × Option IPNet) (c : NetCache T) (ip : Nat) (v : T)
    (hmiss : GetFromIP c.cacheTree ip = none)
    (hget : getter ip = (v, none)) :
    Lookup getter c ip =
      (v, { c with stats := { c.stats with Misses := c.stats.Misses + 1 } }) := by
  simp [Lookup, hmiss, lookupMiss, hget, addCacheEntry]

/-- Witness for C6 at a concrete engine and resolver. -/
theorem C6_uncacheable_still_returns_witness :
    Lookup (fun _ => ((5 : Nat), none)) newCache1 0 =
      (5, { newCache1 with stats := ⟨0, 1, 0⟩ }) :=
  C6_uncacheable_still_returns Nat _ newCache1 0 5 (by decide) rfl

/-- C7: during insert with a bound victim at the recency tail, the eviction
counter is incremented and removal of the old network is attempted; when that
removal fails (the old network is absent from the index) the failure is only
logged — the insert is not aborted: it returns no error, the victim slot's
value and network are overwritten with the new ones, and the new network is
registered in the index. -/
theorem C7_removal_failure_tolerated (T : Type) (c : NetCache T) (v : T)
    (nw old : IPNet) (b : Nat)
    (hb : c.cacheBottom = some b)
    (hold : (c.slots.getD b emptySlot).net = some old)
    (hrem : c.cacheTree.any (fun p => p.fst = canon old) = false)
    (hadd : c.cacheTree.any (fun p => p.fst = canon nw) = false) :
    (addCacheEntry c v (some nw)).snd = none ∧
    (addCacheEntry c v (some nw)).fst.stats.Evictions = c.stats.Evictions + 1 ∧
    (addCacheEntry c v (some nw)).fst.cacheTree = (canon nw, b) :: c.cacheTree ∧
    (addCacheEntry c v (some nw)).fst.slots.getD b emptySlot = ⟨some v, some nw⟩ := by
  have hblen : b < c.slots.length := by
    by_contra hge
    rw [List.getD_eq_default _ _ (by omega)] at hold
    simp [emptySlot] at hold
  have hremnet : removeNet c.cacheTree old = Except.error "network not present" := by
    simp [removeNet, hrem]
  have haddnet : addNet c.cacheTree nw b = Except.ok ((canon nw, b) :: c.cacheTree) := by
    simp [addNet, hadd]
  have hslot : (c.slots.set b ⟨some v, some nw⟩)[b]? = some ⟨some v, some nw⟩ := by
    rw [List.getElem?_set_self (by simpa using hblen)]
  simp only [addCacheEntry, hb, hold, hremnet, haddnet, cacheEntryPromote]
  refine ⟨by trivial, ?_, ?_, ?_⟩ <;> split <;> (try split) <;>
    simp [List.getD_eq_getElem?_getD, hslot]

/-- Witness for C7: a bound victim whose old network `0.0.0.0/24` is absent
from the (empty) index; the insert of `0.0.1.0/24` still succeeds. -/
theorem C7_removal_failure_tolerated_witness :
    (addCacheEntry evictFailState 9 (some ⟨256, 24⟩)).snd = none ∧
    (addCacheEntry evictFailState 9 (some ⟨256, 24⟩)).fst.stats.Evictions =
      evictFailState.stats.Evictions + 1 ∧
    (addCacheEntry evictFailState 9 (some ⟨256, 24⟩)).fst.cacheTree =
      (canon ⟨256, 24⟩, 0) :: evictFailState.cacheTree ∧
    (addCacheEntry evictFailState 9 (some ⟨256, 24⟩)).fst.slots.getD 0 emptySlot =
      ⟨some 9, some ⟨256, 24⟩⟩ :=
  C7_removal_failure_tolerated Nat evictFailState 9 ⟨256, 24⟩ ⟨0, 24⟩ 0
    rfl rfl (by decide) (by decide)

/-- C8: `GetHitRate` equals `hits / (hits + misses) * 100` (exact rational
arithmetic; at `hits = misses = 0` both sides are 0 — the code returns 0
explicitly), and the rate always lies in `[0, 100]`. -/
theorem C8_hit_rate_formula (T : Type) (c : NetCache T) :
    GetHitRate c =
      (c.stats.Hits : ℚ) / ((c.stats.Hits : ℚ) + (c.stats.Misses : ℚ)) * 100 ∧
    (c.stats.Hits = 0 → c.stats.Misses = 0 → GetHitRate c = 0) ∧
    0 ≤ GetHitRate c ∧ GetHitRate c ≤ 100 := by
  unfold GetHitRate
  by_cases htot : c.stats.Hits + c.stats.Misses = 0
  · have h0 : c.stats.Hits = 0 := by omega
    have m0 : c.stats.Misses = 0 := by omega
    simp [htot, h0, m0]
  · have hpos : (0 : ℚ) < (c.stats.Hits : ℚ) + (c.stats.Misses : ℚ) := by
      have : 0 < c.stats.Hits + c.stats.Misses := Nat.pos_of_ne_zero htot
      exact_mod_cast this
    have hle : (c.stats.Hits : ℚ) / ((c.stats.Hits : ℚ) + (c.stats.Misses : ℚ)) ≤ 1 := by
      rw [div_le_one hpos]
      have : (c.stats.Hits : ℚ) ≤ (c.stats.Hits : ℚ) + (c.stats.Misses : ℚ) := by
        have : (0 : ℚ) ≤ (c.stats.Misses : ℚ) := by positivity
        linarith
      exact this
    have hnn : (0 : ℚ) ≤ (c.stats.Hits : ℚ) / ((c.stats.Hits : ℚ) + (c.stats.Misses : ℚ)) := by
      positivity
    refine ⟨?_, fun h0 m0 => by omega, ?_, ?_⟩
    · rw [if_neg htot]
      push_cast
      ring
    · rw [if_neg htot]
      positivity
    · rw [if_neg htot]
      push_cast
      nlinarith [hle, hnn]

/-- Witness for C8 at a concrete zero-stats engine. -/
theorem C8_hit_rate_formula_witness :
    0 ≤ GetHitRate newCache1 ∧ GetHitRate newCache1 = 0 :=
  ⟨(C8_hit_rate_formula Nat newCache1).2.2.1,
   (C8_hit_rate_formula Nat newCache1).2.1 rfl rfl⟩

end GoNetCache
